import Mathlib

/-!
# Verification of the task-manager record store

A shallow embedding of the task-tracking tool's core (`src/constants.py`,
`src/schemas.py`, `src/exceptions.py`, `src/service.py`) together with proofs
about its operations.

Modelling conventions:
* Python `str` values are Lean `String`s; character-level operations work on
  `String.data` (the list of characters).  String comparison, `str.lower()` and
  the regex character classes `\w` / `\s` are modelled over the ASCII range,
  which covers every string the program and its data manipulate.
* `datetime.date` is a record of numerals; Python guarantees its validity
  (year 1–9999, real calendar day), which appears here as the predicate
  `Date.valid`.  Chronological comparison of dates is lexicographic on
  (year, month, day).
* Exceptions are `Except`/`Option` results; pydantic validation failures and
  `json` decoding failures are error values.
-/

namespace TaskManager

/-! ## `src/constants.py` — enumerations and their sort ranks -/

inductive TaskStatus
  | completed
  | not_completed
deriving DecidableEq, Repr

inductive TaskPriority
  | low
  | normal
  | high
deriving DecidableEq, Repr

inductive TaskCategory
  | work
  | study
  | personal
deriving DecidableEq, Repr

/-- The `.value` of the `str`-valued enum member `TaskStatus`. -/
def TaskStatus.value : TaskStatus → String
  | .completed => "completed"
  | .not_completed => "not_completed"

/-- The `.value` of the `str`-valued enum member `TaskPriority`. -/
def TaskPriority.value : TaskPriority → String
  | .low => "low"
  | .normal => "normal"
  | .high => "high"

/-- The `.value` of the `str`-valued enum member `TaskCategory`. -/
def TaskCategory.value : TaskCategory → String
  | .work => "work"
  | .study => "study"
  | .personal => "personal"

/-- Pydantic's coercion of a string into the `TaskStatus` enum. -/
def TaskStatus.ofString? (s : String) : Option TaskStatus :=
  if s = "completed" then some .completed
  else if s = "not_completed" then some .not_completed
  else none

/-- Pydantic's coercion of a string into the `TaskPriority` enum. -/
def TaskPriority.ofString? (s : String) : Option TaskPriority :=
  if s = "low" then some .low
  else if s = "normal" then some .normal
  else if s = "high" then some .high
  else none

/-- Pydantic's coercion of a string into the `TaskCategory` enum. -/
def TaskCategory.ofString? (s : String) : Option TaskCategory :=
  if s = "work" then some .work
  else if s = "study" then some .study
  else if s = "personal" then some .personal
  else none

/-- `STATUS_SORT_ORDER` from `src/constants.py`. -/
def STATUS_SORT_ORDER : TaskStatus → Nat
  | .not_completed => 0
  | .completed => 1

/-- `PRIORITY_SORT_ORDER` from `src/constants.py`. -/
def PRIORITY_SORT_ORDER : TaskPriority → Nat
  | .high => 0
  | .normal => 1
  | .low => 2

/-- `CATEGORY_SORT_ORDER` from `src/constants.py`. -/
def CATEGORY_SORT_ORDER : TaskCategory → Nat
  | .work => 0
  | .study => 1
  | .personal => 2

/-! ## Calendar dates (`datetime.date`) -/

/-- A `datetime.date`: a plain (year, month, day) record.  Whether it denotes a
real calendar day is the separate predicate `Date.valid`; every `date` object
Python can construct satisfies it. -/
structure Date where
  year : Nat
  month : Nat
  day : Nat
deriving DecidableEq, Repr

/-- Gregorian leap-year rule, as used by `datetime`. -/
def Date.isLeap (y : Nat) : Bool :=
  (y % 4 = 0 && y % 100 != 0) || y % 400 = 0

/-- Number of days in a month of a given year, as used by `datetime`. -/
def Date.daysInMonth (y m : Nat) : Nat :=
  if m = 2 then (if Date.isLeap y then 29 else 28)
  else if m = 4 || m = 6 || m = 9 || m = 11 then 30
  else 31

/-- The constraints `datetime.date` enforces at construction
(`MINYEAR = 1`, `MAXYEAR = 9999`, real calendar day). -/
def Date.valid (d : Date) : Bool :=
  1 ≤ d.year && d.year ≤ 9999 && 1 ≤ d.month && d.month ≤ 12 &&
    1 ≤ d.day && d.day ≤ Date.daysInMonth d.year d.month

/-! ## Digits and the `YYYY-MM-DD` rendering of dates -/

/-- The ASCII digit character for `n < 10`. -/
def digitChar (n : Nat) : Char := Char.ofNat (48 + n)

/-- Numeric value of an ASCII digit character. -/
def digitVal (c : Char) : Nat := c.toNat - 48

/-- Two-digit zero-padded rendering (`%02d`) of `n < 100`. -/
def pad2 (n : Nat) : List Char := [digitChar (n / 10), digitChar (n % 10)]

/-- Four-digit zero-padded rendering (`%04d`) of `n < 10000`. -/
def pad4 (n : Nat) : List Char :=
  [digitChar (n / 1000), digitChar (n / 100 % 10), digitChar (n / 10 % 10), digitChar (n % 10)]

/-- `str(deadline)`: the ISO `YYYY-MM-DD` rendering of a `datetime.date`. -/
def dateToString (d : Date) : String :=
  ⟨pad4 d.year ++ '-' :: pad2 d.month ++ '-' :: pad2 d.day⟩

/-- Pydantic's parsing of a `YYYY-MM-DD` string into a `date`: the shape must
be exactly four digits, dash, two digits, dash, two digits, and the three
numbers must form a real calendar date. -/
def dateParse (s : String) : Option Date :=
  match s.data with
  | [y1, y2, y3, y4, h1, m1, m2, h2, d1, d2] =>
    if h1 = '-' && h2 = '-' &&
        y1.isDigit && y2.isDigit && y3.isDigit && y4.isDigit &&
        m1.isDigit && m2.isDigit && d1.isDigit && d2.isDigit then
      let d : Date :=
        ⟨1000 * digitVal y1 + 100 * digitVal y2 + 10 * digitVal y3 + digitVal y4,
          10 * digitVal m1 + digitVal m2,
          10 * digitVal d1 + digitVal d2⟩
      if d.valid then some d else none
    else none
  | _ => none

/-! ## Python string helpers used by the service -/

/-- The regex character class `\w` (word characters), over ASCII. -/
def pyWordChar (c : Char) : Bool := c.isAlpha || c.isDigit || c = '_'

/-- The regex character class `\s` / `str.strip` whitespace, over ASCII:
space, tab, newline, carriage return, vertical tab, form feed. -/
def pyWhitespace (c : Char) : Bool :=
  c = ' ' || c = '\t' || c = '\n' || c = '\r' || c = '\x0b' || c = '\x0c'

/-- `str.lower()`, character by character (ASCII). -/
def pyLower (s : String) : List Char := s.data.map Char.toLower

/-- The test `not value.strip()` of the pydantic `name` validator: true iff
the string is empty or consists of whitespace only. -/
def isBlank (s : String) : Bool := s.data.all pyWhitespace

/-! ## `src/schemas.py` — the pydantic models -/

/-- `TaskRead`: a task record as held in the store. -/
structure TaskRead where
  id : String
  name : String
  description : String
  category : TaskCategory
  deadline : Date
  priority : TaskPriority
  status : TaskStatus
deriving DecidableEq, Repr

/-- `TaskCreate`: the pre-validated creation payload (no id, no status). -/
structure TaskCreate where
  name : String
  description : String
  category : TaskCategory
  deadline : Date
  priority : TaskPriority
deriving DecidableEq, Repr

/-- `TaskUpdate`: the partial-update payload; every field is optional and
absent (`none`) by default. -/
structure TaskUpdate where
  name : Option String := none
  description : Option String := none
  category : Option TaskCategory := none
  deadline : Option Date := none
  priority : Option TaskPriority := none
  status : Option TaskStatus := none
deriving DecidableEq, Repr

/-- One JSON object of the persisted file: the dict produced by
`TaskRead.serialize_model`, every field a string. -/
structure TaskJson where
  id : String
  name : String
  description : String
  status : String
  priority : String
  category : String
  deadline : String
deriving DecidableEq, Repr

/-- `TaskRead.serialize_model` (also the dict written by `TaskSchemaEncoder`):
enums become their `.value` strings and the deadline its `YYYY-MM-DD` string. -/
def serializeTask (t : TaskRead) : TaskJson :=
  ⟨t.id, t.name, t.description, t.status.value, t.priority.value, t.category.value,
    dateToString t.deadline⟩

/-- `TaskRead.model_validate` applied to one parsed JSON object: the name must
be non-blank after stripping, the three enum strings must be members of their
enums, and the deadline string must parse as a real calendar date. -/
def validateTask (j : TaskJson) : Option TaskRead :=
  if isBlank j.name then none
  else
    match TaskStatus.ofString? j.status, TaskPriority.ofString? j.priority,
        TaskCategory.ofString? j.category, dateParse j.deadline with
    | some s, some p, some c, some d =>
      some ⟨j.id, j.name, j.description, c, d, p, s⟩
    | _, _, _, _ => none

/-- A record that satisfies the store's invariants: it passed validation when
it entered the store, so its name is non-blank and its deadline is a real
`datetime.date`. -/
def TaskRead.wf (t : TaskRead) : Bool := !isBlank t.name && t.deadline.valid

/-! ## The canonical sort (`TaskService._basic_sorting_key` and `sorted`)

Python's `sorted(xs, key=k)` is the stable ascending sort of `xs` by the
total preorder `k x ≤ k y`; we realise it as `List.insertionSort`, which is
also stable, applied to an executable comparator `keyLe` that decides
`_basic_sorting_key(a) ≤ _basic_sorting_key(b)` under Python's lexicographic
tuple comparison.  Date comparison is chronological, i.e. lexicographic on
(year, month, day); string comparison is lexicographic on code points. -/

/-- Lexicographic `≤` on lists of characters, by code point — Python string
comparison. -/
def charListLe : List Char → List Char → Bool
  | [], _ => true
  | _ :: _, [] => false
  | a :: as, b :: bs =>
    decide (a.toNat < b.toNat) || (decide (a.toNat = b.toNat) && charListLe as bs)

/-- One lexicographic step of Python tuple comparison: the pair `(x, rest)`
is `≤ (y, rest')` iff `x < y`, or `x = y` and the remaining components
compare `≤`. -/
def lexStep (x y : Nat) (rest : Prop) : Prop := x < y ∨ (x = y ∧ rest)

instance (x y : Nat) (rest : Prop) [Decidable rest] : Decidable (lexStep x y rest) := by
  unfold lexStep; infer_instance

/-- `_basic_sorting_key(a) ≤ _basic_sorting_key(b)`: the five-part composite
key (priority rank, status rank, deadline, category rank, name) compared as a
Python tuple. -/
def keyLe (a b : TaskRead) : Bool :=
  decide (lexStep (PRIORITY_SORT_ORDER a.priority) (PRIORITY_SORT_ORDER b.priority)
    (lexStep (STATUS_SORT_ORDER a.status) (STATUS_SORT_ORDER b.status)
      (lexStep a.deadline.year b.deadline.year
        (lexStep a.deadline.month b.deadline.month
          (lexStep a.deadline.day b.deadline.day
            (lexStep (CATEGORY_SORT_ORDER a.category) (CATEGORY_SORT_ORDER b.category)
              (charListLe a.name.data b.name.data = true)))))))

/-- The canonical sort order as a relation, for `List.insertionSort`. -/
def keyRel (a b : TaskRead) : Prop := keyLe a b = true

instance : DecidableRel keyRel := fun a b => by unfold keyRel; infer_instance

/-- `sorted(xs, key=self._basic_sorting_key)`. -/
def pySorted (ts : List TaskRead) : List TaskRead := ts.insertionSort keyRel

instance {ε α : Type} [DecidableEq ε] [DecidableEq α] : DecidableEq (Except ε α)
  | .error e, .error f => decidable_of_iff (e = f) (by simp)
  | .error _, .ok _ => isFalse (by simp)
  | .ok _, .error _ => isFalse (by simp)
  | .ok a, .ok b => decidable_of_iff (a = b) (by simp)

/-! ## `src/exceptions.py` and the other error values -/

/-- The exceptions the service can raise: `TaskDoesNotExists` (carrying the
offending id), a pydantic `ValidationError`, and `json.JSONDecodeError`. -/
inductive ServiceError
  | taskDoesNotExists (task_id : String)
  | validationError
  | jsonDecodeError
deriving DecidableEq, Repr

/-! ## `src/service.py` — the operations of `TaskService` -/

/-- `TaskService.get_all`. -/
def get_all (ts : List TaskRead) : List TaskRead := pySorted ts

/-- `TaskService.get_by_id` on a well-formed (string) id: the first record
whose lowercased id equals the lowercased argument, else `None`. -/
def get_by_id (ts : List TaskRead) (task_id : String) : Option TaskRead :=
  ts.find? fun t => pyLower task_id = pyLower t.id

/-- The id argument of `get_by_id` as the dynamically typed Python value it
is: either a `str` or a value of some other type. -/
inductive IdInput
  | str (s : String)
  | nonStr
deriving DecidableEq, Repr

/-- The error raised by the attribute access `task_id.lower()` when
`task_id` is not a string (`test_get_by_id_not_valid_id_type`). -/
inductive AttrError
  | attributeError
deriving DecidableEq, Repr

/-- `get_by_id` on an arbitrary (possibly non-string) argument, with
Python's dynamic dispatch.  `task_id.lower()` sits inside the loop body, so
a non-string id raises `AttributeError` on the first iteration — but when
the collection is empty the loop body never runs and the function falls
through to `return None` without raising. -/
def get_by_id_dyn (ts : List TaskRead) : IdInput → Except AttrError (Option TaskRead)
  | .str s => .ok (get_by_id ts s)
  | .nonStr =>
    match ts with
    | [] => .ok none
    | _ :: _ => .error .attributeError

/-- `TaskService.get_by_category`. -/
def get_by_category (ts : List TaskRead) (category : TaskCategory) : List TaskRead :=
  ts.filter fun t => category = t.category

/-- `TaskService.get_by_status`. -/
def get_by_status (ts : List TaskRead) (status : TaskStatus) : List TaskRead :=
  ts.filter fun t => status = t.status

/-- `TaskService.get_by_category_and_status`. -/
def get_by_category_and_status (ts : List TaskRead) (category : TaskCategory)
    (status : TaskStatus) : List TaskRead :=
  ts.filter fun t => category = t.category && status = t.status

/-- `TaskService.delete` without persistence (`need_save=False` core):
look the task up by id, then `self.tasks.remove(task)` removes the first
list element equal to it; a missing id raises `TaskDoesNotExists`. -/
def delete (ts : List TaskRead) (task_id : String) : Except ServiceError (List TaskRead) :=
  match get_by_id ts task_id with
  | none => .error (.taskDoesNotExists task_id)
  | some t => .ok (ts.erase t)

/-- The dict merge `task.model_dump() | data.model_dump(exclude_none=True)`
followed by `TaskRead.model_validate` inside `TaskService.update`:
`task.model_dump()` is the `serialize_model` dict (all strings), the payload
contributes already-typed values for exactly its non-`None` fields, and
validation re-parses the string-valued fields and re-checks the name. -/
def validateMerged (j : TaskJson) (u : TaskUpdate) : Option TaskRead :=
  let name := u.name.getD j.name
  let description := u.description.getD j.description
  if isBlank name then none
  else
    match (match u.status with | some s => some s | none => TaskStatus.ofString? j.status),
        (match u.priority with | some p => some p | none => TaskPriority.ofString? j.priority),
        (match u.category with | some c => some c | none => TaskCategory.ofString? j.category),
        (match u.deadline with | some d => some d | none => dateParse j.deadline) with
    | some s, some p, some c, some d => some ⟨j.id, name, description, c, d, p, s⟩
    | _, _, _, _ => none

/-- `TaskService.update` without persistence: walk the list, replace the
first record with a case-insensitively matching id by the re-validated merge
of its dump with the payload; raise `TaskDoesNotExists` when no id matches,
and propagate pydantic's `ValidationError` when the merge fails validation. -/
def update (ts : List TaskRead) (task_id : String) (u : TaskUpdate) :
    Except ServiceError (List TaskRead) :=
  match ts with
  | [] => .error (.taskDoesNotExists task_id)
  | t :: rest =>
    if pyLower task_id = pyLower t.id then
      match validateMerged (serializeTask t) u with
      | some t' => .ok (t' :: rest)
      | none => .error .validationError
    else
      match update rest task_id u with
      | .ok rest' => .ok (t :: rest')
      | .error e => .error e

/-! ## `TaskService.find` — query tokenisation and regex matching

The code preprocesses the query with
`re.sub(r'[^\w\s]', '', query)` (drop characters that are neither word
characters nor whitespace), `re.sub(r' {2,}', ' ', query)` (collapse runs of
two or more space characters to a single space — only U+0020, not all
whitespace), `query.strip()`, and `query.split(" ")`, then matches the regex
`\bk1\b|\bk2\b|…` case-insensitively against the name and the description. -/

/-- `re.sub(r' {2,}', ' ', ·)`: collapse each run of several spaces into one
space.  (A maximal run of `n ≥ 2` spaces becomes one space; single spaces and
all other whitespace are untouched.) -/
def collapseSpaces : List Char → List Char
  | [] => []
  | ' ' :: ' ' :: rest => collapseSpaces (' ' :: rest)
  | c :: rest => c :: collapseSpaces rest

/-- `str.strip()`: remove leading and trailing whitespace. -/
def pyStrip (l : List Char) : List Char :=
  ((l.dropWhile pyWhitespace).reverse.dropWhile pyWhitespace).reverse

/-- `str.split(" ")`: split at every single space character; consecutive
separators and an empty input produce empty fields (`"".split(" ") == ['']`). -/
def splitOnSpace : List Char → List (List Char)
  | [] => [[]]
  | c :: rest =>
    if c = ' ' then [] :: splitOnSpace rest
    else
      match splitOnSpace rest with
      | [] => [[c]]
      | field :: fields => (c :: field) :: fields

/-- The keyword list `find` builds from the query string. -/
def tokenize (query : String) : List (List Char) :=
  splitOnSpace (pyStrip (collapseSpaces
    (query.data.filter fun c => pyWordChar c || pyWhitespace c)))

/-- Case-insensitive equality of two character lists (`re.IGNORECASE`). -/
def ciEq : List Char → List Char → Bool
  | [], [] => true
  | a :: as, b :: bs => a.toLower = b.toLower && ciEq as bs
  | _, _ => false

/-- Word-character test on an optional character: positions outside the text
count as non-word. -/
def owc : Option Char → Bool
  | some c => pyWordChar c
  | none => false

/-- Whether position `i` of `text` falls on a regex word boundary `\b`:
exactly one of the character before position `i` and the character at
position `i` is a word character (positions outside the text count as
non-word). -/
def boundaryAt (text : List Char) (i : Nat) : Bool :=
  (if i = 0 then false else owc text[i - 1]?) != owc text[i]?

/-- Whether the regex `\b·kw·\b` matches `text` starting at position `i`
(case-insensitively): word boundaries at `i` and at `i + |kw|`, and the slice
of `text` there equals `kw` up to case. -/
def matchAt (kw text : List Char) (i : Nat) : Bool :=
  decide (i + kw.length ≤ text.length) && ciEq ((text.drop i).take kw.length) kw &&
    boundaryAt text i && boundaryAt text (i + kw.length)

/-- Whether `re.findall` finds at least one match of `\b·kw·\b` in `text`:
the pattern matches at some position. -/
def findallHit (kw text : List Char) : Bool :=
  (List.range (text.length + 1)).any fun i => matchAt kw text i

/-- Whether a task is collected by the `find` loop: some keyword's
whole-word pattern hits the name, or (otherwise) the description. -/
def taskMatches (kws : List (List Char)) (t : TaskRead) : Bool :=
  kws.any (fun kw => findallHit kw t.name.data) ||
    kws.any (fun kw => findallHit kw t.description.data)

/-- `TaskService.find`. -/
def find (ts : List TaskRead) (query : String) : List TaskRead :=
  pySorted (ts.filter (taskMatches (tokenize query)))

/-! ## Persistence (`_load_data`, `save_data`) and the store -/

/-- What sits at the path the store is bound to.  `absent`: `os.path.exists`
is false.  `empty`: an existing file with no content.  `jsonList`: a file
holding a JSON array of task objects (the only shape `save_data` writes). -/
inductive FileContents
  | absent
  | empty
  | jsonList (items : List TaskJson)
deriving DecidableEq, Repr

/-- `json.load` on an open file: an empty file is not valid JSON, so it
raises `json.JSONDecodeError`; a file holding a JSON array of task objects
yields those objects. -/
def jsonLoad : FileContents → Except ServiceError (List TaskJson)
  | .empty => .error .jsonDecodeError
  | .jsonList items => .ok items
  | .absent => .error .jsonDecodeError

/-- The list comprehension `[TaskRead.model_validate(task) for task in ...]`:
validate the entries left to right; the first failure aborts the whole load. -/
def validateAll : List TaskJson → Option (List TaskRead)
  | [] => some []
  | j :: rest =>
    match validateTask j, validateAll rest with
    | some t, some ts => some (t :: ts)
    | _, _ => none

/-- `TaskService._load_data`: a missing path yields the empty collection;
otherwise the file is JSON-decoded and every entry validated into a
`TaskRead` (any failure aborts construction). -/
def load_data (file : FileContents) : Except ServiceError (List TaskRead) :=
  match file with
  | .absent => .ok []
  | f =>
    match jsonLoad f with
    | .error e => .error e
    | .ok items =>
      match validateAll items with
      | some ts => .ok ts
      | none => .error .validationError

/-- `TaskService.save_data`: serialize the whole collection, in collection
order, and overwrite the file with it. -/
def save_data (ts : List TaskRead) : FileContents :=
  .jsonList (ts.map serializeTask)

/-- A constructed `TaskService`: its in-memory collection and the contents
at its bound path. -/
structure Store where
  tasks : List TaskRead
  file : FileContents
deriving DecidableEq, Repr

/-- Constructing `TaskService(file_name)` over given file contents. -/
def Store.mk? (file : FileContents) : Except ServiceError Store :=
  match load_data file with
  | .ok ts => .ok ⟨ts, file⟩
  | .error e => .error e

/-- `get_all` as the method call it is: it reads the store and builds a new
sorted list; the store itself is left exactly as it was. -/
def Store.get_all (s : Store) : List TaskRead × Store := (TaskManager.get_all s.tasks, s)

/-- `update` as a method call with `need_save=True`: on success the new
collection replaces the old and is persisted; the raised exception leaves
the store untouched (the code mutates nothing before raising). -/
def Store.update (s : Store) (task_id : String) (u : TaskUpdate) :
    Except ServiceError Unit × Store :=
  match TaskManager.update s.tasks task_id u with
  | .ok ts' => (Except.ok (), ⟨ts', save_data ts'⟩)
  | .error e => (Except.error e, s)

/-- `delete` as a method call with `need_save=True`. -/
def Store.delete (s : Store) (task_id : String) :
    Except ServiceError Unit × Store :=
  match TaskManager.delete s.tasks task_id with
  | .ok ts' => (Except.ok (), ⟨ts', save_data ts'⟩)
  | .error e => (Except.error e, s)

/-! ## Specification-side definitions

These definitions follow the specification's words rather than the code;
they exist to be compared against the corresponding code-side definitions. -/

/-- The specification's tokenisation step "collapsing runs of whitespace to
single spaces": every maximal run of whitespace characters becomes one
space.  (The code collapses only runs of two or more space characters.) -/
def specCollapseWhitespace : List Char → List Char
  | [] => []
  | a :: rest =>
    if pyWhitespace a then
      match rest with
      | [] => [' ']
      | b :: _ =>
        if pyWhitespace b then specCollapseWhitespace rest
        else ' ' :: specCollapseWhitespace rest
    else a :: specCollapseWhitespace rest

/-- The query tokenisation exactly as the specification words it: strip
punctuation, collapse runs of whitespace to single spaces, trim, split on
single spaces. -/
def specTokenize (query : String) : List (List Char) :=
  splitOnSpace (pyStrip (specCollapseWhitespace
    (query.data.filter fun c => pyWordChar c || pyWhitespace c)))

/-- `find` as the specification describes it: the code's matching and
ordering, applied to the specification's tokenisation. -/
def specFind (ts : List TaskRead) (query : String) : List TaskRead :=
  pySorted (ts.filter (taskMatches (specTokenize query)))

/-- A regex word boundary between an (optional) last character on the left
and an (optional) first character on the right. -/
def WordBreak (l r : Option Char) : Prop := owc l ≠ owc r

/-- Declarative whole-word occurrence, as the specification describes it: the
text decomposes as `pre ++ mid ++ post` where `mid` equals the keyword up to
case and both seams lie on word boundaries. -/
def OccursAsWholeWord (kw text : List Char) : Prop :=
  ∃ pre mid post, text = pre ++ mid ++ post ∧ ciEq mid kw = true ∧
    WordBreak pre.getLast? (mid ++ post).head? ∧
    WordBreak (pre ++ mid).getLast? post.head?

/-- Declarative statement of which records a keyword list selects: some
keyword occurs as a whole word in the name or in the description. -/
def SelectedBy (kws : List (List Char)) (t : TaskRead) : Prop :=
  ∃ kw ∈ kws, OccursAsWholeWord kw t.name.data ∨ OccursAsWholeWord kw t.description.data

/-- Whether a string contains at least one word character. -/
def hasWordChar (s : String) : Bool := s.data.any pyWordChar

/-- The field-by-field override the specification ascribes to a partial
update: fields present in the payload are overwritten, all others — id
included — keep their prior values. -/
def applyUpdate (t : TaskRead) (u : TaskUpdate) : TaskRead :=
  ⟨t.id, u.name.getD t.name, u.description.getD t.description,
    u.category.getD t.category, u.deadline.getD t.deadline,
    u.priority.getD t.priority, u.status.getD t.status⟩

/-! ## Concrete example records -/

/-- Record A of the specification's sorting example:
priority `high`, deadline `2024-12-21`. -/
def exA : TaskRead :=
  ⟨"id-a", "A", "", .work, ⟨2024, 12, 21⟩, .high, .not_completed⟩

/-- Record B of the specification's sorting example:
priority `high`, deadline `2024-12-20`. -/
def exB : TaskRead :=
  ⟨"id-b", "B", "", .work, ⟨2024, 12, 20⟩, .high, .not_completed⟩

/-- Record C of the specification's sorting example:
priority `low`, deadline `2024-12-01`. -/
def exC : TaskRead :=
  ⟨"id-c", "C", "", .work, ⟨2024, 12, 1⟩, .low, .not_completed⟩

/-- The record with description `"test get task"` of the `find` example; its
name contains none of the query words. -/
def exGet : TaskRead :=
  ⟨"id-get", "x1", "test get task", .work, ⟨2025, 1, 1⟩, .high, .not_completed⟩

/-- The record with description `"test update task"` of the `find` example;
its name contains none of the query words. -/
def exUpd : TaskRead :=
  ⟨"id-upd", "x2", "test update task", .work, ⟨2025, 1, 2⟩, .high, .not_completed⟩

/-- A record whose name and description are the single word `"a"`. -/
def exWord : TaskRead :=
  ⟨"id-w", "a", "a", .work, ⟨2025, 1, 1⟩, .high, .not_completed⟩

/-! ## Properties of the comparator -/

theorem charListLe_total : ∀ as bs : List Char,
    charListLe as bs = true ∨ charListLe bs as = true := by
  intro as
  induction as with
  | nil => intro bs; exact Or.inl rfl
  | cons a as ih =>
    intro bs
    cases bs with
    | nil => exact Or.inr rfl
    | cons b bs =>
      simp only [charListLe, Bool.or_eq_true, Bool.and_eq_true, decide_eq_true_eq]
      rcases Nat.lt_trichotomy a.toNat b.toNat with h | h | h
      · exact Or.inl (Or.inl h)
      · rcases ih bs with h2 | h2
        · exact Or.inl (Or.inr ⟨h, h2⟩)
        · exact Or.inr (Or.inr ⟨h.symm, h2⟩)
      · exact Or.inr (Or.inl h)

theorem charListLe_trans : ∀ as bs cs : List Char, charListLe as bs = true →
    charListLe bs cs = true → charListLe as cs = true := by
  intro as
  induction as with
  | nil => intro bs cs _ _; rfl
  | cons a as ih =>
    intro bs cs hab hbc
    cases bs with
    | nil => simp [charListLe] at hab
    | cons b bs =>
      cases cs with
      | nil => simp [charListLe] at hbc
      | cons c cs =>
        simp only [charListLe, Bool.or_eq_true, Bool.and_eq_true,
          decide_eq_true_eq] at hab hbc ⊢
        rcases hab with h1 | ⟨h1, h1'⟩ <;> rcases hbc with h2 | ⟨h2, h2'⟩
        · exact Or.inl (by omega)
        · exact Or.inl (by omega)
        · exact Or.inl (by omega)
        · exact Or.inr ⟨by omega, ih bs cs h1' h2'⟩

theorem lexStep_trans {a b c : Nat} {P Q R : Prop} (hab : lexStep a b P)
    (hbc : lexStep b c Q) (h : P → Q → R) : lexStep a c R := by
  simp only [lexStep] at hab hbc ⊢
  rcases hab with h1 | ⟨h1, hP⟩ <;> rcases hbc with h2 | ⟨h2, hQ⟩
  · exact Or.inl (by omega)
  · exact Or.inl (by omega)
  · exact Or.inl (by omega)
  · exact Or.inr ⟨by omega, h hP hQ⟩

theorem lexStep_total {a b : Nat} {P Q : Prop} (h : P ∨ Q) :
    lexStep a b P ∨ lexStep b a Q := by
  simp only [lexStep]
  rcases Nat.lt_trichotomy a b with h1 | h1 | h1
  · exact Or.inl (Or.inl h1)
  · rcases h with hP | hQ
    · exact Or.inl (Or.inr ⟨h1, hP⟩)
    · exact Or.inr (Or.inr ⟨h1.symm, hQ⟩)
  · exact Or.inr (Or.inl h1)

theorem keyRel_trans : ∀ a b c : TaskRead, keyRel a b → keyRel b c → keyRel a c := by
  intro a b c hab hbc
  simp only [keyRel, keyLe, decide_eq_true_eq] at hab hbc ⊢
  refine lexStep_trans hab hbc fun p q => ?_
  refine lexStep_trans p q fun p q => ?_
  refine lexStep_trans p q fun p q => ?_
  refine lexStep_trans p q fun p q => ?_
  refine lexStep_trans p q fun p q => ?_
  refine lexStep_trans p q fun p q => ?_
  exact charListLe_trans _ _ _ p q

theorem keyRel_total : ∀ a b : TaskRead, keyRel a b ∨ keyRel b a := by
  intro a b
  simp only [keyRel, keyLe, decide_eq_true_eq]
  exact lexStep_total (lexStep_total (lexStep_total (lexStep_total (lexStep_total
    (lexStep_total (charListLe_total a.name.data b.name.data))))))

/-! ## C1 -/

/-- C1: for every store state, `get_all` returns all records of the
collection (a permutation of it) sorted ascending by the five-part composite
key (priority rank, status rank, deadline, category rank, name) and stably so
(any pair already in key order keeps its relative order); on the records
A(high, 2024-12-21), B(high, 2024-12-20), C(low, 2024-12-01) it returns
[B, A, C]; and the call leaves the store unchanged. -/
theorem C1_get_all_canonical_sort :
    ∀ ts : List TaskRead,
      List.Sorted keyRel (get_all ts)
      ∧ (get_all ts).Perm ts
      ∧ (∀ a b : TaskRead, keyLe a b = true → List.Sublist [a, b] ts →
          List.Sublist [a, b] (get_all ts))
      ∧ (∀ s : Store, s.get_all = (TaskManager.get_all s.tasks, s))
      ∧ get_all [exA, exB, exC] = [exB, exA, exC] := by
  intro ts
  haveI : IsTrans TaskRead keyRel := ⟨keyRel_trans⟩
  haveI : IsTotal TaskRead keyRel := ⟨keyRel_total⟩
  refine ⟨List.sorted_insertionSort keyRel ts, List.perm_insertionSort keyRel ts,
    ?_, fun s => rfl, by decide⟩
  intro a b hab hsub
  exact List.pair_sublist_insertionSort hab hsub

theorem C1_get_all_canonical_sort_witness :
    List.Sublist [exB, exA] (get_all [exB, exA, exC]) := by
  have h := C1_get_all_canonical_sort [exB, exA, exC]
  exact h.2.2.1 exB exA (by decide)
    (List.Sublist.cons₂ _ (List.Sublist.cons₂ _ (List.nil_sublist _)))

/-! ## C6 -/

/-- C6: constructing a store bound to a nonexistent path succeeds with an
empty collection, but — contrary to the claim and to `_load_data`'s own
docstring — constructing it over an existing empty file does not: `json.load`
raises `JSONDecodeError` on empty input, so construction fails. -/
theorem C6_construction_on_absent_and_empty :
    Store.mk? FileContents.absent = .ok ⟨[], .absent⟩
    ∧ Store.mk? FileContents.empty = .error .jsonDecodeError :=
  ⟨rfl, rfl⟩

/-! ## C7 -/

/-- C7: when no record's id matches the argument case-insensitively, `update`
and `delete` raise `TaskDoesNotExists` carrying that id, and the store — its
collection and its file — is exactly as before the call. -/
theorem C7_update_delete_missing_id :
    ∀ (ts : List TaskRead) (i : String) (u : TaskUpdate),
      (∀ t ∈ ts, pyLower i ≠ pyLower t.id) →
      update ts i u = .error (.taskDoesNotExists i)
      ∧ delete ts i = .error (.taskDoesNotExists i)
      ∧ (∀ file : FileContents,
          Store.update ⟨ts, file⟩ i u = (.error (.taskDoesNotExists i), ⟨ts, file⟩)
          ∧ Store.delete ⟨ts, file⟩ i = (.error (.taskDoesNotExists i), ⟨ts, file⟩)) := by
  intro ts i u h
  have hupd : update ts i u = .error (.taskDoesNotExists i) := by
    induction ts with
    | nil => rfl
    | cons t rest ih =>
      have hne : ¬ pyLower i = pyLower t.id := h t (List.mem_cons_self t rest)
      have hrest : ∀ x ∈ rest, pyLower i ≠ pyLower x.id :=
        fun x hx => h x (List.mem_cons_of_mem t hx)
      simp only [update, if_neg hne, ih hrest]
  have hfind : get_by_id ts i = none := by
    simp only [get_by_id, List.find?_eq_none, decide_eq_true_eq]
    exact h
  have hdel : delete ts i = .error (.taskDoesNotExists i) := by
    simp only [delete, hfind]
  refine ⟨hupd, hdel, fun file => ⟨?_, ?_⟩⟩
  · simp only [Store.update, hupd]
  · simp only [Store.delete, hdel]

theorem C7_update_delete_missing_id_witness :
    update [exA] "missing" {} = .error (.taskDoesNotExists "missing")
    ∧ delete [exA] "missing" = .error (.taskDoesNotExists "missing")
    ∧ (∀ file : FileContents,
        Store.update ⟨[exA], file⟩ "missing" {} =
          (.error (.taskDoesNotExists "missing"), ⟨[exA], file⟩)
        ∧ Store.delete ⟨[exA], file⟩ "missing" =
          (.error (.taskDoesNotExists "missing"), ⟨[exA], file⟩)) :=
  C7_update_delete_missing_id [exA] "missing" {} (by decide)

/-! ## C8 -/

/-- C8 counterexample: the claim's fail-fast clause is false on the empty
store, a reachable state (a fresh store over an absent path).  Because
`task_id.lower()` is evaluated inside the loop body, a non-text id on an
empty collection never reaches it: the call returns the "not found" result
`None` instead of raising. -/
theorem C8_counterexample :
    get_by_id_dyn [] .nonStr = .ok none
    ∧ get_by_id_dyn [] .nonStr ≠ .error .attributeError := by
  constructor
  · rfl
  · decide

/-- C8 (amended): `get_by_id` compares ids case-insensitively and returns
the first matching record; with no match it returns `None` — never an error
for a missing id.  A non-string argument makes the attribute access
`task_id.lower()` fail with `AttributeError` whenever the collection is
non-empty (the access sits inside the loop, so it is reached on the first
iteration); on an empty collection the loop body never runs and the call
returns `None` without raising. -/
theorem C8_get_by_id_lookup :
    ∀ (ts : List TaskRead) (i : String),
      (∀ t : TaskRead, get_by_id ts i = some t →
          pyLower i = pyLower t.id
          ∧ ∃ pre post, ts = pre ++ t :: post ∧ ∀ x ∈ pre, pyLower i ≠ pyLower x.id)
      ∧ (get_by_id ts i = none ↔ ∀ t ∈ ts, pyLower i ≠ pyLower t.id)
      ∧ get_by_id_dyn ts (.str i) = .ok (get_by_id ts i)
      ∧ (ts ≠ [] → get_by_id_dyn ts .nonStr = .error .attributeError)
      ∧ get_by_id_dyn [] .nonStr = .ok none := by
  intro ts i
  refine ⟨?_, ?_, rfl, ?_, rfl⟩
  · intro t ht
    rw [get_by_id, List.find?_eq_some] at ht
    obtain ⟨hmatch, pre, post, hsplit, hpre⟩ := ht
    refine ⟨by simpa using hmatch, pre, post, hsplit, ?_⟩
    intro x hx
    have := hpre x hx
    simpa using this
  · simp only [get_by_id, List.find?_eq_none, decide_eq_true_eq]
  · intro hne
    cases ts with
    | nil => exact absurd rfl hne
    | cons t rest => rfl

theorem C8_get_by_id_lookup_witness :
    (pyLower "ID-B" = pyLower exB.id
      ∧ ∃ pre post, [exA, exB] = pre ++ exB :: post
          ∧ ∀ x ∈ pre, pyLower "ID-B" ≠ pyLower x.id)
    ∧ get_by_id_dyn [exA, exB] .nonStr = .error .attributeError := by
  have h := C8_get_by_id_lookup [exA, exB] "ID-B"
  exact ⟨h.1 exB (by decide), h.2.2.2.1 (by decide)⟩

/-! ## C9 -/

/-- C9: the three filter operations return exactly the records whose category
and/or status equal the arguments, in original collection order (each result
is a sublist of the collection, hence insertion-ordered) and without the
canonical sort: on the store [A, B] — whose canonical order is [B, A] —
`get_by_category` returns [A, B] while `get_all` returns [B, A]. -/
theorem C9_filters_unsorted :
    ∀ (ts : List TaskRead) (c : TaskCategory) (st : TaskStatus),
      get_by_category ts c = ts.filter (fun t => t.category = c)
      ∧ get_by_status ts st = ts.filter (fun t => t.status = st)
      ∧ get_by_category_and_status ts c st
          = ts.filter (fun t => t.category = c ∧ t.status = st)
      ∧ List.Sublist (get_by_category ts c) ts
      ∧ List.Sublist (get_by_status ts st) ts
      ∧ List.Sublist (get_by_category_and_status ts c st) ts
      ∧ get_by_category [exA, exB] .work = [exA, exB]
      ∧ get_all [exA, exB] = [exB, exA] := by
  intro ts c st
  refine ⟨?_, ?_, ?_, List.filter_sublist ts, List.filter_sublist ts,
    List.filter_sublist ts, by decide, by decide⟩
  · exact List.filter_congr fun t _ => by simp [eq_comm]
  · exact List.filter_congr fun t _ => by simp [eq_comm]
  · exact List.filter_congr fun t _ => by
      rw [Bool.decide_and]
      simp [eq_comm]

/-! ## C5 -/

/-- C5 counterexample: on the store holding exactly the records with
descriptions `"test get task"` and `"test update task"`, `find("get task")`
does not return only the first record — the keyword `task` also occurs as a
whole word in `"test update task"`, so both are returned (the repository's
own test `test_find` expects the query to hit every task whose description
contains `task`). -/
theorem C5_counterexample :
    find [exGet, exUpd] "get task" = [exGet, exUpd]
    ∧ find [exGet, exUpd] "get task" ≠ [exGet] := by
  constructor
  · decide
  · decide

/-- C5 (amended): on that store, `find("get task")` returns both records in
canonical order, because the OR-combined keyword `task` whole-word-matches
both descriptions; a query whose sole keyword occurs only in the first
description, `find("get")`, returns only the first record. -/
theorem C5_find_get_task :
    find [exGet, exUpd] "get task" = [exGet, exUpd]
    ∧ find [exGet, exUpd] "get" = [exGet] := by
  constructor
  · decide
  · decide

/-! ## Round-trip lemmas for serialisation -/

theorem statusOfString_value : ∀ s : TaskStatus,
    TaskStatus.ofString? s.value = some s := by
  intro s; cases s <;> rfl

theorem priorityOfString_value : ∀ p : TaskPriority,
    TaskPriority.ofString? p.value = some p := by
  intro p; cases p <;> rfl

theorem categoryOfString_value : ∀ c : TaskCategory,
    TaskCategory.ofString? c.value = some c := by
  intro c; cases c <;> rfl

theorem digitChar_spec : ∀ k < 10,
    (digitChar k).isDigit = true ∧ digitVal (digitChar k) = k := by decide

theorem daysInMonth_le_31 (y m : Nat) : Date.daysInMonth y m ≤ 31 := by
  unfold Date.daysInMonth
  split_ifs <;> omega

theorem dateParse_dateToString : ∀ d : Date, d.valid = true →
    dateParse (dateToString d) = some d := by
  intro d hval
  have h := hval
  simp only [Date.valid, Bool.and_eq_true, decide_eq_true_eq] at h
  obtain ⟨⟨⟨⟨⟨h1, h2⟩, h3⟩, h4⟩, h5⟩, h6⟩ := h
  have hdim := daysInMonth_le_31 d.year d.month
  obtain ⟨i1, v1⟩ := digitChar_spec (d.year / 1000) (by omega)
  obtain ⟨i2, v2⟩ := digitChar_spec (d.year / 100 % 10) (by omega)
  obtain ⟨i3, v3⟩ := digitChar_spec (d.year / 10 % 10) (by omega)
  obtain ⟨i4, v4⟩ := digitChar_spec (d.year % 10) (by omega)
  obtain ⟨i5, v5⟩ := digitChar_spec (d.month / 10) (by omega)
  obtain ⟨i6, v6⟩ := digitChar_spec (d.month % 10) (by omega)
  obtain ⟨i7, v7⟩ := digitChar_spec (d.day / 10) (by omega)
  obtain ⟨i8, v8⟩ := digitChar_spec (d.day % 10) (by omega)
  simp only [dateToString, pad4, pad2, List.cons_append, List.nil_append, dateParse,
    i1, i2, i3, i4, i5, i6, i7, i8, v1, v2, v3, v4, v5, v6, v7, v8]
  have hy : 1000 * (d.year / 1000) + 100 * (d.year / 100 % 10) + 10 * (d.year / 10 % 10)
      + d.year % 10 = d.year := by omega
  have hm : 10 * (d.month / 10) + d.month % 10 = d.month := by omega
  have hd : 10 * (d.day / 10) + d.day % 10 = d.day := by omega
  simp only [hy, hm, hd, hval]
  simp

theorem validateTask_serializeTask : ∀ t : TaskRead, t.wf = true →
    validateTask (serializeTask t) = some t := by
  intro t h
  simp only [TaskRead.wf, Bool.and_eq_true, Bool.not_eq_true'] at h
  simp only [validateTask, serializeTask, h.1, statusOfString_value,
    priorityOfString_value, categoryOfString_value,
    dateParse_dateToString t.deadline h.2]
  simp

/-! ## C3 -/

/-- C3: saving any collection of valid records with `save_data` and
constructing a fresh store from the resulting file reproduces the collection
exactly — same records, same field values, same order. -/
theorem C3_save_load_roundtrip :
    ∀ ts : List TaskRead, (∀ t ∈ ts, t.wf = true) →
      load_data (save_data ts) = .ok ts
      ∧ Store.mk? (save_data ts) = .ok ⟨ts, save_data ts⟩ := by
  intro ts h
  have hall : validateAll (ts.map serializeTask) = some ts := by
    induction ts with
    | nil => rfl
    | cons t rest ih =>
      have ht := validateTask_serializeTask t (h t (List.mem_cons_self t rest))
      have hr := ih fun x hx => h x (List.mem_cons_of_mem t hx)
      simp only [List.map_cons, validateAll, ht, hr]
  constructor
  · simp only [load_data, save_data, jsonLoad, hall]
  · simp only [Store.mk?, load_data, save_data, jsonLoad, hall]

theorem C3_save_load_roundtrip_witness :
    load_data (save_data [exA, exB]) = .ok [exA, exB]
    ∧ Store.mk? (save_data [exA, exB]) = .ok ⟨[exA, exB], save_data [exA, exB]⟩ :=
  C3_save_load_roundtrip [exA, exB] (by decide)

/-! ## C2 -/

theorem validateMerged_serializeTask :
    ∀ (t : TaskRead) (u : TaskUpdate), t.wf = true →
      u.name.all (fun n => !isBlank n) = true →
      validateMerged (serializeTask t) u = some (applyUpdate t u) := by
  intro t u hwf hn
  simp only [TaskRead.wf, Bool.and_eq_true, Bool.not_eq_true'] at hwf
  have hname : isBlank (u.name.getD (serializeTask t).name) = false := by
    cases hu : u.name with
    | none => simpa [serializeTask] using hwf.1
    | some n => rw [hu] at hn; simpa using hn
  obtain ⟨un, ud, uc, udl, up, us⟩ := u
  cases us <;> cases up <;> cases uc <;> cases udl <;>
    simp_all [validateMerged, serializeTask, applyUpdate, statusOfString_value,
      priorityOfString_value, categoryOfString_value,
      dateParse_dateToString t.deadline hwf.2]

theorem validateMerged_blank_name :
    ∀ (j : TaskJson) (u : TaskUpdate) (n : String),
      u.name = some n → isBlank n = true → validateMerged j u = none := by
  intro j u n h1 h2
  simp [validateMerged, h1, h2]

theorem update_first_match :
    ∀ (pre post : List TaskRead) (t : TaskRead) (i : String) (u : TaskUpdate),
      pyLower i = pyLower t.id →
      (∀ x ∈ pre, pyLower i ≠ pyLower x.id) →
      update (pre ++ t :: post) i u =
        match validateMerged (serializeTask t) u with
        | some t' => .ok (pre ++ t' :: post)
        | none => .error .validationError := by
  intro pre post t i u hmatch hfirst
  induction pre with
  | nil =>
    simp only [List.nil_append, update, if_pos hmatch]
  | cons x pre ih =>
    have hx : ¬ pyLower i = pyLower x.id := hfirst x (List.mem_cons_self x pre)
    have hrest := ih fun y hy => hfirst y (List.mem_cons_of_mem x hy)
    rw [List.cons_append]
    simp only [update, if_neg hx, List.append_eq, hrest]
    cases validateMerged (serializeTask t) u <;> rfl

/-- C2 counterexample: the claim fails for a payload whose supplied name is
blank.  On the store `[exA]` and the payload `{name: " "}`, `update` does not
overwrite the name field — `TaskRead.model_validate` rejects the merged dict
and the call raises `ValidationError` instead. -/
theorem C2_counterexample :
    update [exA] "id-a" ⟨some " ", none, none, none, none, none⟩
        = .error .validationError
    ∧ update [exA] "id-a" ⟨some " ", none, none, none, none, none⟩
        ≠ .ok [applyUpdate exA ⟨some " ", none, none, none, none, none⟩] := by
  constructor
  · decide
  · decide

/-- C2 (amended): for every store state whose first record matching the id
(case-insensitively) is `t`, and every update payload whose supplied name —
if any — is non-blank after trimming, `update` replaces `t` in place by the
record with exactly the payload's present fields overwritten and every other
field (id and status included) kept, leaving all other records unchanged;
when the payload supplies a blank name the call instead fails with
`ValidationError`. -/
theorem C2_update_partial_fields :
    ∀ (pre post : List TaskRead) (t : TaskRead) (i : String) (u : TaskUpdate),
      pyLower i = pyLower t.id →
      (∀ x ∈ pre, pyLower i ≠ pyLower x.id) →
      t.wf = true →
      (u.name.all (fun n => !isBlank n) = true →
        update (pre ++ t :: post) i u = .ok (pre ++ applyUpdate t u :: post))
      ∧ (∀ n, u.name = some n → isBlank n = true →
        update (pre ++ t :: post) i u = .error .validationError) := by
  intro pre post t i u hmatch hfirst hwf
  constructor
  · intro hn
    rw [update_first_match pre post t i u hmatch hfirst,
      validateMerged_serializeTask t u hwf hn]
  · intro n h1 h2
    rw [update_first_match pre post t i u hmatch hfirst,
      validateMerged_blank_name (serializeTask t) u n h1 h2]

theorem C2_update_partial_fields_witness :
    update [exB, exA] "ID-A" ⟨none, none, none, none, none, some .completed⟩
      = .ok [exB, applyUpdate exA ⟨none, none, none, none, none, some .completed⟩] := by
  have h := C2_update_partial_fields [exB] [] exA "ID-A"
    ⟨none, none, none, none, none, some .completed⟩ (by decide) (by decide) (by decide)
  exact h.1 (by decide)

/-! ## Regex matching: the scan-based matcher agrees with the declarative
whole-word occurrence -/

theorem ciEq_length : ∀ as bs : List Char, ciEq as bs = true → as.length = bs.length := by
  intro as
  induction as with
  | nil =>
    intro bs h
    cases bs with
    | nil => rfl
    | cons b bs => simp [ciEq] at h
  | cons a as ih =>
    intro bs h
    cases bs with
    | nil => simp [ciEq] at h
    | cons b bs =>
      simp only [ciEq, Bool.and_eq_true] at h
      simp [ih bs h.2]

theorem boundaryAt_append : ∀ pre post : List Char,
    boundaryAt (pre ++ post) pre.length = true ↔ WordBreak pre.getLast? post.head? := by
  intro pre post
  have hr : (pre ++ post)[pre.length]? = post.head? := by
    rw [List.getElem?_append_right (Nat.le_refl _), List.head?_eq_getElem?]
    simp
  have hl : (if pre.length = 0 then false else owc (pre ++ post)[pre.length - 1]?)
      = owc pre.getLast? := by
    cases pre with
    | nil => rfl
    | cons a as =>
      rw [if_neg (by simp)]
      congr 1
      rw [List.getElem?_append_left (by simp only [List.length_cons]; omega),
        List.getLast?_eq_getElem?]
  unfold boundaryAt WordBreak
  rw [hr, hl, bne_iff_ne]

theorem findallHit_iff : ∀ kw text : List Char,
    findallHit kw text = true ↔ OccursAsWholeWord kw text := by
  intro kw text
  unfold findallHit OccursAsWholeWord
  rw [List.any_eq_true]
  constructor
  · rintro ⟨i, hi, hm⟩
    rw [List.mem_range] at hi
    unfold matchAt at hm
    simp only [Bool.and_eq_true, decide_eq_true_eq] at hm
    obtain ⟨⟨⟨hlen, hci⟩, hb1⟩, hb2⟩ := hm
    have hpre : (text.take i).length = i := by
      rw [List.length_take]; omega
    have hmid : (text.drop i).take kw.length ++ text.drop (i + kw.length) = text.drop i := by
      rw [← List.drop_drop, List.take_append_drop]
    refine ⟨text.take i, (text.drop i).take kw.length, text.drop (i + kw.length),
      ?_, hci, ?_, ?_⟩
    · rw [List.append_assoc, hmid, List.take_append_drop]
    · rw [hmid]
      have h := boundaryAt_append (text.take i) (text.drop i)
      rw [List.take_append_drop, hpre] at h
      exact h.mp hb1
    · have hmidlen : ((text.drop i).take kw.length).length = kw.length := by
        rw [List.length_take, List.length_drop]; omega
      have h := boundaryAt_append (text.take i ++ (text.drop i).take kw.length)
        (text.drop (i + kw.length))
      rw [List.append_assoc, hmid, List.take_append_drop, List.length_append,
        hpre, hmidlen] at h
      exact h.mp hb2
  · rintro ⟨pre, mid, post, hsplit, hci, hw1, hw2⟩
    have hmidlen : mid.length = kw.length := ciEq_length mid kw hci
    have htext : text.length = pre.length + (mid.length + post.length) := by
      rw [hsplit]; simp
    refine ⟨pre.length, ?_, ?_⟩
    · rw [List.mem_range]; omega
    · unfold matchAt
      simp only [Bool.and_eq_true, decide_eq_true_eq]
      refine ⟨⟨⟨by omega, ?_⟩, ?_⟩, ?_⟩
      · rw [hsplit, List.append_assoc, List.drop_left, ← hmidlen, List.take_left]
        exact hci
      · have h := (boundaryAt_append pre (mid ++ post)).mpr hw1
        rw [← List.append_assoc, ← hsplit] at h
        exact h
      · have h := (boundaryAt_append (pre ++ mid) post).mpr hw2
        rw [← hsplit, List.length_append, hmidlen] at h
        exact h

theorem taskMatches_iff : ∀ (kws : List (List Char)) (t : TaskRead),
    taskMatches kws t = true ↔ SelectedBy kws t := by
  intro kws t
  unfold taskMatches SelectedBy
  simp only [Bool.or_eq_true, List.any_eq_true, findallHit_iff]
  constructor
  · rintro (⟨kw, hkw, h⟩ | ⟨kw, hkw, h⟩)
    · exact ⟨kw, hkw, Or.inl h⟩
    · exact ⟨kw, hkw, Or.inr h⟩
  · rintro ⟨kw, hkw, h | h⟩
    · exact Or.inl ⟨kw, hkw, h⟩
    · exact Or.inr ⟨kw, hkw, h⟩

/-! ## C4 -/

/-- C4 counterexample: the claim's tokenisation collapses runs of any
whitespace to single spaces, but the code collapses only runs of two or more
space characters (`re.sub(r' {2,}', ' ', …)`).  On the query `"a\tb"` the
claimed tokenisation yields the keywords `a` and `b`, so the record whose
name is `"a"` would be returned; the code keeps the tab, builds the single
keyword `a\tb`, and returns nothing. -/
theorem C4_counterexample :
    find [exWord] "a\tb" = []
    ∧ specFind [exWord] "a\tb" = [exWord]
    ∧ tokenize "a\tb" = [['a', '\t', 'b']]
    ∧ specTokenize "a\tb" = [['a'], ['b']] := by
  refine ⟨by decide, by decide, by decide, by decide⟩

/-- C4 (amended): `find(query)` tokenizes the query by stripping punctuation
characters, collapsing runs of two or more space characters (U+0020 only) to
single spaces, trimming, and splitting on single spaces into keywords
(`tokenize`), and returns exactly the records — with multiplicity — in which
at least one keyword occurs as a whole word (word-boundary-delimited,
case-insensitive) in the name or in the description; keywords are
OR-combined, and the result is canonically sorted. -/
theorem C4_find_whole_word :
    ∀ (ts : List TaskRead) (q : String),
      List.Sorted keyRel (find ts q)
      ∧ (∀ t, t ∈ find ts q → t ∈ ts)
      ∧ (∀ t, (SelectedBy (tokenize q) t ∧ (find ts q).count t = ts.count t)
            ∨ (¬ SelectedBy (tokenize q) t ∧ (find ts q).count t = 0)) := by
  intro ts q
  haveI : IsTrans TaskRead keyRel := ⟨keyRel_trans⟩
  haveI : IsTotal TaskRead keyRel := ⟨keyRel_total⟩
  refine ⟨List.sorted_insertionSort keyRel _, ?_, ?_⟩
  · intro t ht
    unfold find pySorted at ht
    rw [List.mem_insertionSort] at ht
    exact (List.mem_filter.mp ht).1
  · intro t
    have hperm : (find ts q).count t = (ts.filter (taskMatches (tokenize q))).count t :=
      (List.perm_insertionSort keyRel _).count_eq t
    by_cases h : taskMatches (tokenize q) t = true
    · refine Or.inl ⟨(taskMatches_iff _ t).mp h, ?_⟩
      rw [hperm, List.count_filter h]
    · refine Or.inr ⟨fun hs => h ((taskMatches_iff _ t).mpr hs), ?_⟩
      rw [hperm, List.count_eq_zero]
      intro hmem
      exact h (List.mem_filter.mp hmem).2

theorem C4_find_whole_word_witness :
    SelectedBy (tokenize "get") exGet
    ∧ (find [exGet, exUpd] "get").count exGet = [exGet, exUpd].count exGet := by
  have h := C4_find_whole_word [exGet, exUpd] "get"
  rcases h.2.2 exGet with hc | hc
  · exact hc
  · exact absurd hc.2 (by decide)

/-! ## C10 -/

theorem findallHit_nil_iff : ∀ text : List Char,
    findallHit [] text = true ↔ text.any pyWordChar = true := by
  intro text
  unfold findallHit
  rw [List.any_eq_true]
  constructor
  · rintro ⟨i, hi, hm⟩
    unfold matchAt at hm
    simp only [List.length_nil, Nat.add_zero, List.take_zero, Bool.and_eq_true,
      decide_eq_true_eq] at hm
    obtain ⟨⟨⟨-, -⟩, hb⟩, -⟩ := hm
    unfold boundaryAt at hb
    rw [bne_iff_ne] at hb
    rw [List.any_eq_true]
    by_cases h0 : i = 0
    · subst h0
      rw [if_pos rfl] at hb
      cases hc : text[0]? with
      | none => rw [hc] at hb; exact absurd rfl hb
      | some c =>
        rw [hc] at hb
        refine ⟨c, List.getElem?_mem hc, ?_⟩
        cases hw : pyWordChar c with
        | true => rfl
        | false => exact absurd (by simp [owc, hw]) hb
    · rw [if_neg h0] at hb
      cases hp : text[i - 1]? with
      | none =>
        rw [hp] at hb
        cases hc : text[i]? with
        | none => rw [hc] at hb; exact absurd rfl hb
        | some c =>
          rw [hc] at hb
          refine ⟨c, List.getElem?_mem hc, ?_⟩
          cases hw : pyWordChar c with
          | true => rfl
          | false => exact absurd (by simp [owc, hw]) hb
      | some p =>
        rw [hp] at hb
        cases hwp : pyWordChar p with
        | true => exact ⟨p, List.getElem?_mem hp, hwp⟩
        | false =>
          cases hc : text[i]? with
          | none => rw [hc] at hb; exact absurd (by simp [owc, hwp]) hb
          | some c =>
            rw [hc] at hb
            refine ⟨c, List.getElem?_mem hc, ?_⟩
            cases hw : pyWordChar c with
            | true => rfl
            | false => exact absurd (by simp [owc, hwp, hw]) hb
  · intro h
    have hsplit : text.takeWhile (fun c => !pyWordChar c)
        ++ text.dropWhile (fun c => !pyWordChar c) = text :=
      List.takeWhile_append_dropWhile ..
    have htext : (text.takeWhile (fun c => !pyWordChar c)).length
        + (text.dropWhile (fun c => !pyWordChar c)).length = text.length := by
      rw [← List.length_append, hsplit]
    have hb : boundaryAt text (text.takeWhile (fun c => !pyWordChar c)).length = true := by
      have hwb : WordBreak (text.takeWhile (fun c => !pyWordChar c)).getLast?
          (text.dropWhile (fun c => !pyWordChar c)).head? := by
        have hleft : owc (text.takeWhile (fun c => !pyWordChar c)).getLast? = false := by
          cases hg : (text.takeWhile (fun c => !pyWordChar c)).getLast? with
          | none => rfl
          | some c =>
            have hmem := List.mem_of_getLast?_eq_some hg
            have := List.mem_takeWhile_imp hmem
            simpa [owc] using this
        have hright : owc (text.dropWhile (fun c => !pyWordChar c)).head? = true := by
          cases hg : (text.dropWhile (fun c => !pyWordChar c)).head? with
          | none =>
            exfalso
            have hnil : text.dropWhile (fun c => !pyWordChar c) = [] := by
              cases hd : text.dropWhile (fun c => !pyWordChar c) with
              | nil => rfl
              | cons x xs => rw [hd] at hg; simp at hg
            rw [List.dropWhile_eq_nil_iff] at hnil
            rw [List.any_eq_true] at h
            obtain ⟨c, hc, hw⟩ := h
            have := hnil c hc
            simp [hw] at this
          | some c =>
            have := List.head?_dropWhile_not (fun c => !pyWordChar c) text
            rw [hg] at this
            simpa [owc] using this
        unfold WordBreak
        rw [hleft, hright]
        simp
      have hbd := (boundaryAt_append (text.takeWhile (fun c => !pyWordChar c))
        (text.dropWhile (fun c => !pyWordChar c))).mpr hwb
      rw [hsplit] at hbd
      exact hbd
    refine ⟨(text.takeWhile (fun c => !pyWordChar c)).length, ?_, ?_⟩
    · rw [List.mem_range]; omega
    · unfold matchAt
      simp only [List.length_nil, Nat.add_zero, List.take_zero, Bool.and_eq_true,
        decide_eq_true_eq]
      exact ⟨⟨⟨by omega, rfl⟩, hb⟩, hb⟩

/-- C10: when the query tokenizes to the single empty keyword (as the empty,
whitespace-only and punctuation-only queries do), the joined pattern is
`\b\b`, which matches exactly the texts containing a word boundary — i.e.
at least one word character; `find` therefore returns exactly the records
whose name or description contains a word character, canonically sorted. -/
theorem C10_find_empty_keyword :
    ∀ (ts : List TaskRead) (q : String), tokenize q = [[]] →
      find ts q = pySorted (ts.filter fun t =>
        hasWordChar t.name || hasWordChar t.description)
      ∧ List.Sorted keyRel (find ts q) := by
  intro ts q h
  haveI : IsTrans TaskRead keyRel := ⟨keyRel_trans⟩
  haveI : IsTotal TaskRead keyRel := ⟨keyRel_total⟩
  constructor
  · unfold find
    rw [h]
    congr 1
    apply List.filter_congr
    intro t _
    unfold taskMatches hasWordChar
    simp only [List.any_cons, List.any_nil, Bool.or_false]
    cases h1 : findallHit [] t.name.data with
    | true =>
      have := (findallHit_nil_iff t.name.data).mp h1
      rw [this]
      rfl
    | false =>
      have h1' : ¬ t.name.data.any pyWordChar = true := fun hc =>
        by rw [(findallHit_nil_iff t.name.data).mpr hc] at h1; exact Bool.noConfusion h1
      rw [Bool.eq_false_iff.mpr h1']
      cases h2 : findallHit [] t.description.data with
      | true =>
        have := (findallHit_nil_iff t.description.data).mp h2
        rw [this]
      | false =>
        have h2' : ¬ t.description.data.any pyWordChar = true := fun hc =>
          by rw [(findallHit_nil_iff t.description.data).mpr hc] at h2
             exact Bool.noConfusion h2
        rw [Bool.eq_false_iff.mpr h2']
  · exact List.sorted_insertionSort keyRel _

theorem C10_find_empty_keyword_witness :
    find [exWord] "!!" = pySorted ([exWord].filter fun t =>
      hasWordChar t.name || hasWordChar t.description)
    ∧ List.Sorted keyRel (find [exWord] "!!") :=
  C10_find_empty_keyword [exWord] "!!" (by decide)

end TaskManager
